import Mathlib

/-!
Shallow embedding of the `rs-async-zip` ZIP container codec.

The write side (`src/write/mod.rs`, `src/write/entry_stream.rs`) and the
read side (`src/read/fs.rs`) are translated into pure Lean functions over
byte streams modelled as `List Nat` (each element one byte).  External
collaborators (the CRC-32 accumulator, the offset-tracking writers, the
delimiter reader, the compression transform) are modelled at their
interface boundary as the specification describes them: compressed bytes
emitted by the adapter are explicit inputs of the write-step relation, and
the CRC accumulator is the standard reflected CRC-32 state machine.
-/

namespace AsyncZip

set_option autoImplicit false

/-- Little-endian encoding of a 16-bit value (`u16::to_le_bytes`). -/
def u16le (n : Nat) : List Nat := [n % 256, n / 256 % 256]

/-- Little-endian encoding of a 32-bit value (`u32::to_le_bytes`). -/
def u32le (n : Nat) : List Nat :=
  [n % 256, n / 256 % 256, n / 2 ^ 16 % 256, n / 2 ^ 24 % 256]

/-- Modelled from the spec: the four 4-byte magics of §6 are named
symbolically there; we use the conventional ZIP values
(`crate::spec::signature`, not under `src/`). -/
def LOCAL_FILE_HEADER : Nat := 0x04034b50

/-- Modelled from the spec: conventional data-descriptor signature value. -/
def DATA_DESCRIPTOR : Nat := 0x08074b50

/-- Modelled from the spec: conventional central-directory header signature. -/
def CENTRAL_DIRECTORY_FILE_HEADER : Nat := 0x02014b50

/-- Modelled from the spec: conventional end-of-central-directory signature. -/
def END_OF_CENTRAL_DIRECTORY : Nat := 0x06054b50

/-- General-purpose flag bitfield (`crate::spec::header::GeneralPurposeFlag`). -/
structure GeneralPurposeFlag where
  encrypted : Bool
  data_descriptor : Bool
  filename_unicode : Bool
deriving DecidableEq, Repr

/-- Modelled from the spec: the flag bitfield encoder (`spec/header.rs`, not
under `src/`) with the conventional bit positions — bit 0 encryption,
bit 3 data descriptor, bit 11 unicode filename. -/
def GeneralPurposeFlag.as_u16 (f : GeneralPurposeFlag) : Nat :=
  (if f.encrypted then 1 else 0) + (if f.data_descriptor then 8 else 0) +
    (if f.filename_unicode then 2048 else 0)

/-- Modelled from the spec: decoding of the flag bitfield from a `u16`. -/
def GeneralPurposeFlag.from_u16 (n : Nat) : GeneralPurposeFlag :=
  { encrypted := n / 1 % 2 == 1, data_descriptor := n / 8 % 2 == 1,
    filename_unicode := n / 2048 % 2 == 1 }

/-- Local file header record (`crate::spec::header::LocalFileHeader`). -/
structure LocalFileHeader where
  version : Nat
  flags : GeneralPurposeFlag
  compression : Nat
  mod_time : Nat
  mod_date : Nat
  crc : Nat
  compressed_size : Nat
  uncompressed_size : Nat
  file_name_length : Nat
  extra_field_length : Nat
deriving DecidableEq, Repr

/-- Modelled from the spec: local-file-header body layout of §6 —
version-needed(2), flags(2), compression-method(2), mod-time(2),
mod-date(2), crc32(4), compressed-size(4), uncompressed-size(4),
filename-length(2), extra-length(2); all little-endian. -/
def LocalFileHeader.as_slice (h : LocalFileHeader) : List Nat :=
  u16le h.version ++ u16le h.flags.as_u16 ++ u16le h.compression ++
    u16le h.mod_time ++ u16le h.mod_date ++ u32le h.crc ++
    u32le h.compressed_size ++ u32le h.uncompressed_size ++
    u16le h.file_name_length ++ u16le h.extra_field_length

/-- Central directory header record (`crate::spec::header::CentralDirectoryHeader`). -/
structure CentralDirectoryHeader where
  v_made_by : Nat
  v_needed : Nat
  flags : GeneralPurposeFlag
  compression : Nat
  mod_time : Nat
  mod_date : Nat
  crc : Nat
  compressed_size : Nat
  uncompressed_size : Nat
  file_name_length : Nat
  extra_field_length : Nat
  file_comment_length : Nat
  disk_start : Nat
  inter_attr : Nat
  exter_attr : Nat
  lh_offset : Nat
deriving DecidableEq, Repr

/-- Modelled from the spec: central-directory header body layout of §6 —
the local-file-header body with version-made-by(2) prepended and
file-comment-length(2), disk-start(2), internal-attrs(2),
external-attrs(4), local-header-offset(4) appended after the lengths. -/
def CentralDirectoryHeader.as_slice (h : CentralDirectoryHeader) : List Nat :=
  u16le h.v_made_by ++ u16le h.v_needed ++ u16le h.flags.as_u16 ++
    u16le h.compression ++ u16le h.mod_time ++ u16le h.mod_date ++
    u32le h.crc ++ u32le h.compressed_size ++ u32le h.uncompressed_size ++
    u16le h.file_name_length ++ u16le h.extra_field_length ++
    u16le h.file_comment_length ++ u16le h.disk_start ++
    u16le h.inter_attr ++ u32le h.exter_attr ++ u32le h.lh_offset

/-- End-of-central-directory record (`crate::spec::header::EndOfCentralDirectoryHeader`). -/
structure EndOfCentralDirectoryHeader where
  disk_num : Nat
  start_cent_dir_disk : Nat
  num_of_entries_disk : Nat
  num_of_entries : Nat
  size_cent_dir : Nat
  cent_dir_offset : Nat
  file_comm_length : Nat
deriving DecidableEq, Repr

/-- Modelled from the spec: end-of-central-directory body layout of §6 —
disk-number(2), start-disk(2), entries-on-this-disk(2), total-entries(2),
directory-size(4), directory-offset(4), comment-length(2). -/
def EndOfCentralDirectoryHeader.as_slice (h : EndOfCentralDirectoryHeader) : List Nat :=
  u16le h.disk_num ++ u16le h.start_cent_dir_disk ++
    u16le h.num_of_entries_disk ++ u16le h.num_of_entries ++
    u32le h.size_cent_dir ++ u32le h.cent_dir_offset ++
    u16le h.file_comm_length

/-- Modelled from the spec: the compression-method tags (store, deflate)
with their conventional numeric values (`spec/compression.rs`, not under
`src/`). -/
inductive Compression where
  | stored : Compression
  | deflate : Compression
deriving DecidableEq, Repr

/-- Modelled from the spec: numeric method tag carried in the headers. -/
def Compression.to_u16 : Compression → Nat
  | .stored => 0
  | .deflate => 8

/-- Write-side entry options (`EntryOptions` in `src/write/mod.rs`);
filename and comment are kept byte-exact as byte lists. -/
structure EntryOptions where
  filename : List Nat
  compression : Compression
  extra : List Nat
  comment : List Nat
  unix_permissions : Nat
deriving DecidableEq, Repr

/-- Modelled from the spec: `version::as_needed_to_extract` lives outside
`src/` and the spec leaves its value unspecified; no claim depends on it. -/
def as_needed_to_extract (_o : EntryOptions) : Nat := 20

/-- Modelled from the spec: `version::as_made_by`, value unspecified by the
spec; no claim depends on it. -/
def as_made_by : Nat := 20

/-- Finalized directory entry retained by the archive writer
(`CentralDirectoryEntry` in `src/write/mod.rs`). -/
structure CentralDirectoryEntry where
  header : CentralDirectoryHeader
  opts : EntryOptions
deriving DecidableEq, Repr

/-- Archive writer state (`ZipFileWriter` in `src/write/mod.rs`): `out` is
every byte written through the offset-tracking writer since construction,
so the tracked offset is `out.length`. -/
structure ZipFileWriter where
  out : List Nat
  cd_entries : List CentralDirectoryEntry
  comment_opt : Option (List Nat)
deriving DecidableEq, Repr

/-- Modelled from the spec: the CRC-32 accumulator (`crc32fast::Hasher`, an
external collaborator specified as a polymorphic accumulator consumed
incrementally) as the standard reflected CRC-32 state machine; one
shift-xor round of the bitwise algorithm. -/
def crcRound (c : Nat) : Nat :=
  if c % 2 = 1 then c / 2 ^^^ 0xEDB88320 else c / 2

/-- Iterated CRC rounds. -/
def crcRounds : Nat → Nat → Nat
  | 0, c => c
  | n + 1, c => crcRounds n (crcRound c)

/-- Initial accumulator state of `Hasher::new`. -/
def Hasher.new : Nat := 0xFFFFFFFF

/-- Feed one byte into the CRC-32 accumulator. -/
def Hasher.updateByte (c b : Nat) : Nat := crcRounds 8 (c ^^^ b % 256)

/-- Feed a byte run into the accumulator (`Hasher::update`). -/
def Hasher.update (c : Nat) (bs : List Nat) : Nat := bs.foldl Hasher.updateByte c

/-- Final xor of `Hasher::finalize`. -/
def Hasher.finalize (c : Nat) : Nat := c ^^^ 0xFFFFFFFF

/-- CRC-32 of a byte run. -/
def crc32 (bs : List Nat) : Nat := Hasher.finalize (Hasher.update Hasher.new bs)

/-- Streaming entry writer state (`EntryStreamWriter` in
`src/write/entry_stream.rs`).  `zw` is the borrowed archive writer (shared
output stream plus directory-entry list); `outerOffset` is the offset of
the `AsyncOffsetWriter` wrapped around the compression adapter, i.e. the
number of uncompressed bytes accepted from the caller; `hasher` is the
CRC-32 accumulator state. -/
structure EntryStreamWriter where
  zw : ZipFileWriter
  outerOffset : Nat
  options : EntryOptions
  hasher : Nat
  lfh : LocalFileHeader
  lfh_offset : Nat
  data_offset : Nat
deriving DecidableEq, Repr

/-- The local file header value built by `EntryStreamWriter::write_lfh`:
placeholder sizes and CRC, data-descriptor flag set.  The modification
time/date pair is an input (the source obtains it from `Utc::now`, an
external clock). -/
def EntryStreamWriter.lfhFor (o : EntryOptions) (mod_time mod_date : Nat) :
    LocalFileHeader :=
  { compressed_size := 0
    uncompressed_size := 0
    compression := o.compression.to_u16
    crc := 0
    extra_field_length := o.extra.length % 2 ^ 16
    file_name_length := o.filename.length % 2 ^ 16
    mod_time := mod_time
    mod_date := mod_date
    version := as_needed_to_extract o
    flags := { data_descriptor := true, encrypted := false,
               filename_unicode := !(o.filename.all (· < 128)) } }

/-- `EntryStreamWriter::write_lfh`: emit signature, header body, filename
bytes, extra bytes onto the shared stream and return the header value. -/
def EntryStreamWriter.write_lfh (w : ZipFileWriter) (o : EntryOptions)
    (mod_time mod_date : Nat) : ZipFileWriter × LocalFileHeader :=
  let lfh := EntryStreamWriter.lfhFor o mod_time mod_date
  ({ w with out := w.out ++ u32le LOCAL_FILE_HEADER ++ lfh.as_slice ++
        o.filename ++ o.extra }, lfh)

/-- `EntryStreamWriter::from_raw`: record the header offset, write the local
file header, record the data offset, and start with a fresh outer offset
writer and a fresh hasher. -/
def EntryStreamWriter.from_raw (zw : ZipFileWriter) (o : EntryOptions)
    (mod_time mod_date : Nat) : EntryStreamWriter :=
  let lfh_offset := zw.out.length
  let p := EntryStreamWriter.write_lfh zw o mod_time mod_date
  let data_offset := p.1.out.length
  { zw := p.1, outerOffset := 0, options := o, hasher := Hasher.new,
    lfh := p.2, lfh_offset := lfh_offset, data_offset := data_offset }

/-- Outcome of one `poll_write` on the wrapped compression adapter,
modelled at the interface boundary: `ready written emitted` means the
adapter accepted `written` uncompressed bytes of the buffer and pushed the
byte run `emitted` into the shared output stream. -/
inductive WritePoll where
  | pending : WritePoll
  | ioError : WritePoll
  | ready : Nat → List Nat → WritePoll
deriving DecidableEq, Repr

/-- `EntryStreamWriter::poll_write` (`src/write/entry_stream.rs`): the
hasher is updated with `buf[0..written]` exactly when the inner poll
returns `Ready(Ok(written))`; otherwise the state is unchanged. -/
def EntryStreamWriter.poll_write (w : EntryStreamWriter) (buf : List Nat) :
    WritePoll → EntryStreamWriter
  | .ready written emitted =>
      { w with zw := { w.zw with out := w.zw.out ++ emitted },
               outerOffset := w.outerOffset + written,
               hasher := Hasher.update w.hasher (buf.take written) }
  | _ => w

/-- Run a sequence of `poll_write` calls. -/
def EntryStreamWriter.runWrites (w : EntryStreamWriter) :
    List (List Nat × WritePoll) → EntryStreamWriter
  | [] => w
  | (buf, p) :: rest => (w.poll_write buf p).runWrites rest

/-- Uncompressed bytes a single poll step accepted. -/
def acceptedChunk : List Nat × WritePoll → List Nat
  | (buf, .ready written _) => buf.take written
  | _ => []

/-- Uncompressed bytes accepted over a run of poll steps. -/
def acceptedBytes (steps : List (List Nat × WritePoll)) : List Nat :=
  (steps.map acceptedChunk).flatten

/-- Accepted-byte count a single poll step reported. -/
def acceptedCount1 : List Nat × WritePoll → Nat
  | (_, .ready written _) => written
  | _ => 0

/-- Reported accepted-byte count over a run of poll steps. -/
def acceptedCount (steps : List (List Nat × WritePoll)) : Nat :=
  (steps.map acceptedCount1).sum

/-- Compressed bytes a single poll step emitted into the shared stream. -/
def emittedChunk : List Nat × WritePoll → List Nat
  | (_, .ready _ emitted) => emitted
  | _ => []

/-- Compressed bytes emitted over a run of poll steps. -/
def emittedBytes (steps : List (List Nat × WritePoll)) : List Nat :=
  (steps.map emittedChunk).flatten

/-- A poll step is well formed when the reported accepted count does not
exceed the buffer length (the contract of `poll_write`). -/
def stepWF : List Nat × WritePoll → Prop
  | (buf, .ready written _) => written ≤ buf.length
  | _ => True

/-- `EntryStreamWriter::close` (`src/write/entry_stream.rs`): shut the
adapter down (the final bytes it flushes are the explicit input
`flushEmitted`), finalize the CRC, read the uncompressed size off the
outer offset writer, compute the compressed size as the inner offset minus
the data offset, write the trailing descriptor, and push one
`CentralDirectoryEntry`. -/
def EntryStreamWriter.close (w : EntryStreamWriter) (flushEmitted : List Nat) :
    ZipFileWriter :=
  let out1 := w.zw.out ++ flushEmitted
  let crc := Hasher.finalize w.hasher
  let uncompressed_size := w.outerOffset % 2 ^ 32
  let compressed_size := (out1.length - w.data_offset) % 2 ^ 32
  let out2 := out1 ++ u32le DATA_DESCRIPTOR ++ u32le crc ++
    u32le compressed_size ++ u32le uncompressed_size
  let cdh : CentralDirectoryHeader :=
    { compressed_size := compressed_size
      uncompressed_size := uncompressed_size
      crc := crc
      v_made_by := as_made_by
      v_needed := w.lfh.version
      compression := w.lfh.compression
      extra_field_length := w.lfh.extra_field_length
      file_name_length := w.lfh.file_name_length
      file_comment_length := w.options.comment.length % 2 ^ 16
      mod_time := w.lfh.mod_time
      mod_date := w.lfh.mod_date
      flags := w.lfh.flags
      disk_start := 0
      inter_attr := 0
      exter_attr := 0
      lh_offset := w.lfh_offset % 2 ^ 32 }
  { out := out2,
    cd_entries := w.zw.cd_entries ++ [{ header := cdh, opts := w.options }],
    comment_opt := w.zw.comment_opt }

/-- One re-emitted directory record of `ZipFileWriter::close`: signature,
header body, filename bytes, extra bytes, comment bytes. -/
def cdEntryRecordBytes (e : CentralDirectoryEntry) : List Nat :=
  u32le CENTRAL_DIRECTORY_FILE_HEADER ++ e.header.as_slice ++
    e.opts.filename ++ e.opts.extra ++ e.opts.comment

/-- The re-emission loop of `ZipFileWriter::close`. -/
def writeCdEntries (out : List Nat) : List CentralDirectoryEntry → List Nat
  | [] => out
  | e :: rest => writeCdEntries (out ++ cdEntryRecordBytes e) rest

/-- The end-of-central-directory record value `ZipFileWriter::close`
constructs after re-emitting the directory. -/
def ZipFileWriter.closeHeader (w : ZipFileWriter) : EndOfCentralDirectoryHeader :=
  let cd_offset := w.out.length
  let out1 := writeCdEntries w.out w.cd_entries
  { disk_num := 0
    start_cent_dir_disk := 0
    num_of_entries_disk := w.cd_entries.length % 2 ^ 16
    num_of_entries := w.cd_entries.length % 2 ^ 16
    size_cent_dir := (out1.length - cd_offset) % 2 ^ 32
    cent_dir_offset := cd_offset % 2 ^ 32
    file_comm_length :=
      match w.comment_opt with
      | some c => c.length % 2 ^ 16
      | none => 0 }

/-- `ZipFileWriter::close` (`src/write/mod.rs`): re-emit every accumulated
directory entry in append order, then the end-of-central-directory
signature and record, then the archive comment when one was set. -/
def ZipFileWriter.close (w : ZipFileWriter) : List Nat :=
  let out1 := writeCdEntries w.out w.cd_entries
  out1 ++ u32le END_OF_CENTRAL_DIRECTORY ++ w.closeHeader.as_slice ++
    w.comment_opt.getD []

/-- Error taxonomy of §7 (`crate::error::ZipError`, not under `src/`); only
the variants the modelled paths can produce are needed. -/
inductive ZipError where
  | EntryIndexOutOfBounds : ZipError
  | MalformedArchive : ZipError
  | TruncatedData : ZipError
  | EntryCountMismatch : ZipError
deriving DecidableEq, Repr

/-- Byte of a stream at an index, zero past the end (reads past the end are
only performed under a length guard). -/
def byteAt (bs : List Nat) (i : Nat) : Nat := bs.getD i 0

/-- Little-endian 16-bit read at an index. -/
def rdU16 (bs : List Nat) (i : Nat) : Nat := byteAt bs i + 256 * byteAt bs (i + 1)

/-- Little-endian 32-bit read at an index. -/
def rdU32 (bs : List Nat) (i : Nat) : Nat :=
  byteAt bs i + 256 * byteAt bs (i + 1) + 2 ^ 16 * byteAt bs (i + 2) +
    2 ^ 24 * byteAt bs (i + 3)

/-- Modelled from the spec: `LocalFileHeader::from_reader`
(`spec/header.rs`, not under `src/`) — decode the 26-byte header body (the
4-byte signature has already been consumed by the caller's seek) at the
cursor, failing when the stream is too short. -/
def LocalFileHeader.from_reader (bs : List Nat) : Except ZipError LocalFileHeader :=
  if bs.length < 26 then .error .TruncatedData
  else .ok
    { version := rdU16 bs 0
      flags := GeneralPurposeFlag.from_u16 (rdU16 bs 2)
      compression := rdU16 bs 4
      mod_time := rdU16 bs 6
      mod_date := rdU16 bs 8
      crc := rdU32 bs 10
      compressed_size := rdU32 bs 14
      uncompressed_size := rdU32 bs 18
      file_name_length := rdU16 bs 22
      extra_field_length := rdU16 bs 24 }

/-- Modelled from the spec: decode of the 42-byte central-directory header
body, layout as in `CentralDirectoryHeader.as_slice`. -/
def CentralDirectoryHeader.from_bytes (bs : List Nat) :
    Except ZipError CentralDirectoryHeader :=
  if bs.length < 42 then .error .TruncatedData
  else .ok
    { v_made_by := rdU16 bs 0
      v_needed := rdU16 bs 2
      flags := GeneralPurposeFlag.from_u16 (rdU16 bs 4)
      compression := rdU16 bs 6
      mod_time := rdU16 bs 8
      mod_date := rdU16 bs 10
      crc := rdU32 bs 12
      compressed_size := rdU32 bs 16
      uncompressed_size := rdU32 bs 20
      file_name_length := rdU16 bs 24
      extra_field_length := rdU16 bs 26
      file_comment_length := rdU16 bs 28
      disk_start := rdU16 bs 30
      inter_attr := rdU16 bs 32
      exter_attr := rdU32 bs 34
      lh_offset := rdU32 bs 38 }

/-- Modelled from the spec: the read-side `ZipEntry` (`read/mod.rs`, not
under `src/`) per §3 — the size/CRC/offset fields are optional exactly as
the `Option::unwrap` calls in `entry_reader` presuppose. -/
structure ZipEntry where
  filename : List Nat
  compression : Nat
  compressed_size : Option Nat
  uncompressed_size : Option Nat
  crc : Option Nat
  offset : Option Nat
  flags : GeneralPurposeFlag
deriving DecidableEq, Repr

/-- Modelled from the spec: `ZipEntry::data_descriptor` exposes the
data-descriptor bit of the entry's flags. -/
def ZipEntry.data_descriptor (e : ZipEntry) : Bool := e.flags.data_descriptor

/-- Modelled from the spec: `AsyncDelimiterReader` (an external collaborator
specified at its interface in §4.3) — everything strictly before the first
occurrence of the delimiter byte run is payload; when the delimiter never
occurs the whole stream is returned. -/
def takeUntilDelim (d : List Nat) : List Nat → List Nat
  | [] => []
  | b :: rest =>
      if d.isPrefixOf (b :: rest) then [] else b :: takeUntilDelim d rest

/-- Result of `ZipFileReader::entry_reader`, at the interface to the
compression adapter: the method tag handed to
`CompressionReader::from_reader`, the framed raw payload bytes handed to
it, and the data-descriptor mode flag of the produced `ZipEntryReader`. -/
structure EntryReaderModel where
  compression : Nat
  rawPayload : List Nat
  withDataDescriptor : Bool
deriving DecidableEq, Repr

/-- Read-side archive handle (`ZipFileReader` in `src/read/fs.rs`); the
backing file's bytes are passed explicitly where the source re-opens the
file by name. -/
structure ZipFileReader where
  entries : List ZipEntry
  comment : Option (List Nat)
deriving DecidableEq, Repr

/-- `ZipFileReader::entry_reader` (`src/read/fs.rs`): index bound check
first, then — on a fresh handle onto `file` — seek to `offset + 4`, decode
the local file header, skip its declared filename/extra lengths, and frame
the payload either by the data-descriptor delimiter scan or by taking
exactly the central-directory `compressed_size` bytes.  The outer `Option`
is `none` exactly when one of the two `Option::unwrap` calls would panic. -/
def ZipFileReader.entry_reader (z : ZipFileReader) (file : List Nat)
    (index : Nat) : Option (Except ZipError EntryReaderModel) :=
  match z.entries.get? index with
  | none => some (.error .EntryIndexOutOfBounds)
  | some entry =>
    match entry.offset with
    | none => none
    | some off =>
      match LocalFileHeader.from_reader (file.drop (off + 4)) with
      | .error e => some (.error e)
      | .ok header =>
        let region := file.drop
          (off + 4 + 26 + (header.file_name_length + header.extra_field_length))
        if entry.data_descriptor then
          some (.ok { compression := entry.compression,
                      rawPayload := takeUntilDelim (u32le DATA_DESCRIPTOR) region,
                      withDataDescriptor := true })
        else
          match entry.compressed_size with
          | none => none
          | some cs =>
              some (.ok { compression := entry.compression,
                          rawPayload := region.take cs,
                          withDataDescriptor := false })

/-- Modelled from the spec: the entry a central-directory header parses to
(`read::seek::read_cd`, not under `src/`; §3 lifecycle) — every field is
populated from the header, the optional ones with `some`. -/
def ZipEntry.from_cdh (h : CentralDirectoryHeader) (filename : List Nat) :
    ZipEntry :=
  { filename := filename
    compression := h.compression
    compressed_size := some h.compressed_size
    uncompressed_size := some h.uncompressed_size
    crc := some h.crc
    offset := some h.lh_offset
    flags := h.flags }

/-- Modelled from the spec: the entry-table construction of
`read::seek::read_cd` (§4.2) — decode exactly `count` central-directory
headers in sequence, each followed by its declared filename/extra/comment
byte runs, producing one entry per header in file order; `none` on any
structural failure. -/
def parseCD : Nat → List Nat → Option (List ZipEntry)
  | 0, _ => some []
  | count + 1, bs =>
    if (u32le CENTRAL_DIRECTORY_FILE_HEADER).isPrefixOf bs then
      match CentralDirectoryHeader.from_bytes (bs.drop 4) with
      | .error _ => none
      | .ok h =>
        let total := 4 + 42 + h.file_name_length + h.extra_field_length +
          h.file_comment_length
        if bs.length < total then none
        else
          match parseCD count (bs.drop total) with
          | none => none
          | some rest =>
              some (ZipEntry.from_cdh h ((bs.drop 46).take h.file_name_length)
                :: rest)
    else none

/-- `EntryOptions::unix_permissions` (`src/write/mod.rs`): consume the
options and override only the unix-permissions field. -/
def EntryOptions.set_unix_permissions (o : EntryOptions) (p : Nat) : EntryOptions :=
  { filename := o.filename, compression := o.compression, extra := o.extra,
    comment := o.comment, unix_permissions := p }

/-- Replace only the options field of a stream writer state (used to state
that the byte-producing pipeline never reads the replaced field). -/
def EntryStreamWriter.withOptions (w : EntryStreamWriter) (o2 : EntryOptions) :
    EntryStreamWriter :=
  { zw := w.zw, outerOffset := w.outerOffset, options := o2, hasher := w.hasher,
    lfh := w.lfh, lfh_offset := w.lfh_offset, data_offset := w.data_offset }

/-- Concrete empty archive writer used to evaluate the model on closed
inputs. -/
def zwEmpty : ZipFileWriter := { out := [], cd_entries := [], comment_opt := none }

/-- Concrete entry options used to evaluate the model on closed inputs. -/
def optsF : EntryOptions :=
  { filename := [102], compression := .stored, extra := [], comment := [],
    unix_permissions := 0 }

/-- Concrete poll-step run used to evaluate the model on closed inputs:
one successful partial write and one pending poll. -/
def stepsEx : List (List Nat × WritePoll) :=
  [([10, 20], .ready 2 [10, 20]), ([30], .pending)]

/-- Concrete all-zero local file header used on closed inputs. -/
def hdrZero : LocalFileHeader :=
  { version := 0, flags := ⟨false, false, false⟩, compression := 0,
    mod_time := 0, mod_date := 0, crc := 0, compressed_size := 0,
    uncompressed_size := 0, file_name_length := 0, extra_field_length := 0 }

/-- Concrete entry with a known compressed size of 3 at offset 0 and the
data-descriptor flag clear. -/
def entryKnown : ZipEntry :=
  { filename := [], compression := 0, compressed_size := some 3,
    uncompressed_size := some 3, crc := some 0, offset := some 0,
    flags := ⟨false, false, false⟩ }

/-- Concrete entry with the data-descriptor flag set at offset 0. -/
def entryDD : ZipEntry :=
  { filename := [], compression := 8, compressed_size := none,
    uncompressed_size := none, crc := none, offset := some 0,
    flags := ⟨false, true, false⟩ }

/-- Concrete entry whose offset field is absent. -/
def entryNoOffset : ZipEntry :=
  { filename := [], compression := 0, compressed_size := some 0,
    uncompressed_size := none, crc := none, offset := none,
    flags := ⟨false, false, false⟩ }

/-- Concrete entry whose compressed-size field is absent while the
data-descriptor flag is clear. -/
def entryNoSize : ZipEntry :=
  { filename := [], compression := 0, compressed_size := none,
    uncompressed_size := none, crc := none, offset := some 0,
    flags := ⟨false, false, false⟩ }

/-- Concrete entry that a run of `parseCD` over one all-zero header yields. -/
def entryParsed : ZipEntry :=
  { filename := [], compression := 0, compressed_size := some 0,
    uncompressed_size := some 0, crc := some 0, offset := some 0,
    flags := ⟨false, false, false⟩ }

/-! Helper lemmas about the write-run and the directory re-emission loop. -/

theorem Hasher.update_append (c : Nat) (a b : List Nat) :
    Hasher.update c (a ++ b) = Hasher.update (Hasher.update c a) b := by
  simp [Hasher.update, List.foldl_append]

theorem acceptedBytes_cons (s : List Nat × WritePoll)
    (rest : List (List Nat × WritePoll)) :
    acceptedBytes (s :: rest) = acceptedChunk s ++ acceptedBytes rest := by
  simp [acceptedBytes]

theorem emittedBytes_cons (s : List Nat × WritePoll)
    (rest : List (List Nat × WritePoll)) :
    emittedBytes (s :: rest) = emittedChunk s ++ emittedBytes rest := by
  simp [emittedBytes]

theorem acceptedCount_cons (s : List Nat × WritePoll)
    (rest : List (List Nat × WritePoll)) :
    acceptedCount (s :: rest) = acceptedCount1 s + acceptedCount rest := by
  simp [acceptedCount]

theorem runWrites_hasher (steps : List (List Nat × WritePoll)) :
    ∀ w : EntryStreamWriter,
      (w.runWrites steps).hasher = Hasher.update w.hasher (acceptedBytes steps) := by
  induction steps with
  | nil =>
      intro w
      simp [EntryStreamWriter.runWrites, acceptedBytes, Hasher.update]
  | cons s rest ih =>
      intro w
      obtain ⟨buf, p⟩ := s
      cases p with
      | pending =>
          simp [EntryStreamWriter.runWrites, EntryStreamWriter.poll_write, ih,
            acceptedBytes_cons, acceptedChunk]
      | ioError =>
          simp [EntryStreamWriter.runWrites, EntryStreamWriter.poll_write, ih,
            acceptedBytes_cons, acceptedChunk]
      | ready written emitted =>
          simp [EntryStreamWriter.runWrites, EntryStreamWriter.poll_write, ih,
            acceptedBytes_cons, acceptedChunk, Hasher.update_append]

theorem runWrites_out (steps : List (List Nat × WritePoll)) :
    ∀ w : EntryStreamWriter,
      (w.runWrites steps).zw.out = w.zw.out ++ emittedBytes steps := by
  induction steps with
  | nil =>
      intro w
      simp [EntryStreamWriter.runWrites, emittedBytes]
  | cons s rest ih =>
      intro w
      obtain ⟨buf, p⟩ := s
      cases p with
      | pending =>
          simp [EntryStreamWriter.runWrites, EntryStreamWriter.poll_write, ih,
            emittedBytes_cons, emittedChunk]
      | ioError =>
          simp [EntryStreamWriter.runWrites, EntryStreamWriter.poll_write, ih,
            emittedBytes_cons, emittedChunk]
      | ready written emitted =>
          simp [EntryStreamWriter.runWrites, EntryStreamWriter.poll_write, ih,
            emittedBytes_cons, emittedChunk]

theorem runWrites_outerOffset (steps : List (List Nat × WritePoll)) :
    ∀ w : EntryStreamWriter,
      (w.runWrites steps).outerOffset = w.outerOffset + acceptedCount steps := by
  induction steps with
  | nil =>
      intro w
      simp [EntryStreamWriter.runWrites, acceptedCount]
  | cons s rest ih =>
      intro w
      obtain ⟨buf, p⟩ := s
      cases p with
      | pending =>
          simp [EntryStreamWriter.runWrites, EntryStreamWriter.poll_write, ih,
            acceptedCount_cons, acceptedCount1]
      | ioError =>
          simp [EntryStreamWriter.runWrites, EntryStreamWriter.poll_write, ih,
            acceptedCount_cons, acceptedCount1]
      | ready written emitted =>
          simp [EntryStreamWriter.runWrites, EntryStreamWriter.poll_write, ih,
            acceptedCount_cons, acceptedCount1]
          omega

theorem runWrites_frame (steps : List (List Nat × WritePoll)) :
    ∀ w : EntryStreamWriter,
      (w.runWrites steps).data_offset = w.data_offset ∧
      (w.runWrites steps).lfh_offset = w.lfh_offset ∧
      (w.runWrites steps).lfh = w.lfh ∧
      (w.runWrites steps).options = w.options ∧
      (w.runWrites steps).zw.cd_entries = w.zw.cd_entries ∧
      (w.runWrites steps).zw.comment_opt = w.zw.comment_opt := by
  induction steps with
  | nil =>
      intro w
      simp [EntryStreamWriter.runWrites]
  | cons s rest ih =>
      intro w
      obtain ⟨buf, p⟩ := s
      cases p with
      | pending => simpa [EntryStreamWriter.runWrites, EntryStreamWriter.poll_write] using ih _
      | ioError => simpa [EntryStreamWriter.runWrites, EntryStreamWriter.poll_write] using ih _
      | ready written emitted =>
          simpa [EntryStreamWriter.runWrites, EntryStreamWriter.poll_write] using ih _

theorem acceptedCount_eq_length (steps : List (List Nat × WritePoll))
    (hwf : ∀ s ∈ steps, stepWF s) :
    (acceptedBytes steps).length = acceptedCount steps := by
  induction steps with
  | nil => simp [acceptedBytes, acceptedCount]
  | cons s rest ih =>
      have hs : stepWF s := hwf s (by simp)
      have hrest : ∀ t ∈ rest, stepWF t := fun t ht => hwf t (by simp [ht])
      obtain ⟨buf, p⟩ := s
      cases p with
      | pending =>
          simpa [acceptedBytes_cons, acceptedCount_cons, acceptedChunk,
            acceptedCount1] using ih hrest
      | ioError =>
          simpa [acceptedBytes_cons, acceptedCount_cons, acceptedChunk,
            acceptedCount1] using ih hrest
      | ready written emitted =>
          have hw : written ≤ buf.length := hs
          simp [acceptedBytes_cons, acceptedCount_cons, acceptedChunk,
            acceptedCount1, ih hrest, List.length_take]
          omega

theorem writeCdEntries_eq (es : List CentralDirectoryEntry) :
    ∀ out : List Nat,
      writeCdEntries out es = out ++ (es.map cdEntryRecordBytes).flatten := by
  induction es with
  | nil => intro out; simp [writeCdEntries]
  | cons e rest ih =>
      intro out
      simp [writeCdEntries, ih]

/-! Helper lemmas about the delimiter scan. -/

theorem takeUntilDelim_isPrefixOf (d : List Nat) :
    ∀ bs : List Nat, (takeUntilDelim d bs).isPrefixOf bs = true := by
  intro bs
  induction bs with
  | nil => simp [takeUntilDelim]
  | cons b rest ih =>
      by_cases h : d.isPrefixOf (b :: rest)
      · simp [takeUntilDelim, h]
      · simpa [takeUntilDelim, h, List.isPrefixOf_cons₂] using ih

theorem takeUntilDelim_min (d : List Nat) :
    ∀ (bs : List Nat) (i : Nat), d.isPrefixOf (bs.drop i) = true →
      (takeUntilDelim d bs).length ≤ i := by
  intro bs
  induction bs with
  | nil => intro i _; simp [takeUntilDelim]
  | cons b rest ih =>
      intro i hpre
      by_cases h : d.isPrefixOf (b :: rest)
      · simp [takeUntilDelim, h]
      · match i with
        | 0 => rw [List.drop_zero] at hpre; exact absurd hpre h
        | j + 1 =>
            simp only [List.drop_succ_cons] at hpre
            simpa [takeUntilDelim, h, Nat.succ_le_succ_iff] using ih j hpre

theorem takeUntilDelim_boundary (d : List Nat) :
    ∀ bs : List Nat, takeUntilDelim d bs = bs ∨
      d.isPrefixOf (bs.drop (takeUntilDelim d bs).length) = true := by
  intro bs
  induction bs with
  | nil => left; simp [takeUntilDelim]
  | cons b rest ih =>
      by_cases h : d.isPrefixOf (b :: rest)
      · right; simp [takeUntilDelim, h]
      · rcases ih with heq | hpre
        · left; simp [takeUntilDelim, h, heq]
        · right; simpa [takeUntilDelim, h] using hpre

theorem u16le_mod (n : Nat) : u16le (n % 2 ^ 16) = u16le n := by
  simp only [u16le, List.cons.injEq, and_true]
  omega

theorem u32le_mod (n : Nat) : u32le (n % 2 ^ 32) = u32le n := by
  simp only [u32le, List.cons.injEq, and_true]
  omega

theorem parseCD_fields (count : Nat) :
    ∀ (bs : List Nat) (entries : List ZipEntry),
      parseCD count bs = some entries →
      ∀ e ∈ entries, e.offset.isSome ∧ e.compressed_size.isSome := by
  induction count with
  | zero =>
      intro bs entries h e he
      simp only [parseCD, Option.some.injEq] at h
      subst h
      simp at he
  | succ n ih =>
      intro bs entries h e he
      rw [parseCD] at h
      split at h
      · split at h
        · exact absurd h (by simp)
        · dsimp only at h
          split at h
          · exact absurd h (by simp)
          · split at h
            · exact absurd h (by simp)
            · rename_i hrest
              rw [Option.some.injEq] at h
              subst h
              rcases List.mem_cons.mp he with rfl | hmem
              · simp [ZipEntry.from_cdh]
              · exact ih _ _ hrest e hmem
      · exact absurd h (by simp)

theorem close_shape (w : EntryStreamWriter) (flushEmitted : List Nat) :
    (w.close flushEmitted).out =
        w.zw.out ++ flushEmitted ++ u32le DATA_DESCRIPTOR ++
          u32le (Hasher.finalize w.hasher) ++
          u32le ((w.zw.out.length + flushEmitted.length - w.data_offset) % 2 ^ 32) ++
          u32le (w.outerOffset % 2 ^ 32) ∧
      (w.close flushEmitted).cd_entries = w.zw.cd_entries ++
        [{ header :=
            { compressed_size :=
                (w.zw.out.length + flushEmitted.length - w.data_offset) % 2 ^ 32
              uncompressed_size := w.outerOffset % 2 ^ 32
              crc := Hasher.finalize w.hasher
              v_made_by := as_made_by
              v_needed := w.lfh.version
              compression := w.lfh.compression
              extra_field_length := w.lfh.extra_field_length
              file_name_length := w.lfh.file_name_length
              file_comment_length := w.options.comment.length % 2 ^ 16
              mod_time := w.lfh.mod_time
              mod_date := w.lfh.mod_date
              flags := w.lfh.flags
              disk_start := 0
              inter_attr := 0
              exter_attr := 0
              lh_offset := w.lfh_offset % 2 ^ 32 }
           opts := w.options }] := by
  constructor
  · simp [EntryStreamWriter.close, List.append_assoc]
  · simp [EntryStreamWriter.close]

theorem runWrites_set_options (steps : List (List Nat × WritePoll)) :
    ∀ (w : EntryStreamWriter) (o2 : EntryOptions),
      (w.withOptions o2).runWrites steps = (w.runWrites steps).withOptions o2 := by
  induction steps with
  | nil => intro w o2; rfl
  | cons s rest ih =>
      intro w o2
      obtain ⟨buf, p⟩ := s
      cases p with
      | pending => exact ih w o2
      | ioError => exact ih w o2
      | ready written emitted => exact ih (w.poll_write buf (.ready written emitted)) o2

/-- C1: for every streamed entry, `close` first appends the bytes the
compression adapter flushes on shutdown, then computes the final CRC-32 of
the accepted uncompressed bytes, the uncompressed size as the number of
bytes the caller supplied and the compressed size as the number of bytes
the adapter emitted into the output stream since the local header was
written, writes the trailing descriptor in the order signature, CRC-32,
compressed size, uncompressed size, and appends exactly one
`CentralDirectoryEntry` carrying these final sizes and CRC. -/
theorem stream_close_spec (zw : ZipFileWriter) (o : EntryOptions) (mt md : Nat)
    (steps : List (List Nat × WritePoll)) (flush : List Nat)
    (hwf : ∀ s ∈ steps, stepWF s)
    (hcs : (emittedBytes steps).length + flush.length < 2 ^ 32)
    (hus : (acceptedBytes steps).length < 2 ^ 32) :
    ((((EntryStreamWriter.from_raw zw o mt md).runWrites steps).close flush).out =
        (((EntryStreamWriter.from_raw zw o mt md).runWrites steps)).zw.out ++
          flush ++ u32le DATA_DESCRIPTOR ++
          u32le (crc32 (acceptedBytes steps)) ++
          u32le ((emittedBytes steps).length + flush.length) ++
          u32le (acceptedBytes steps).length) ∧
      ∃ cde : CentralDirectoryEntry,
        (((EntryStreamWriter.from_raw zw o mt md).runWrites steps).close
            flush).cd_entries = zw.cd_entries ++ [cde] ∧
          cde.header.crc = crc32 (acceptedBytes steps) ∧
          cde.header.compressed_size = (emittedBytes steps).length + flush.length ∧
          cde.header.uncompressed_size = (acceptedBytes steps).length ∧
          cde.opts = o := by
  obtain ⟨hdo, hlo, hlfh, hopts, hcd, hcom⟩ :=
    runWrites_frame steps (EntryStreamWriter.from_raw zw o mt md)
  have hout := runWrites_out steps (EntryStreamWriter.from_raw zw o mt md)
  have hhash := runWrites_hasher steps (EntryStreamWriter.from_raw zw o mt md)
  have hoff := runWrites_outerOffset steps (EntryStreamWriter.from_raw zw o mt md)
  have hbase_hash : (EntryStreamWriter.from_raw zw o mt md).hasher = Hasher.new := rfl
  have hbase_off : (EntryStreamWriter.from_raw zw o mt md).outerOffset = 0 := rfl
  have hbase_do : (EntryStreamWriter.from_raw zw o mt md).data_offset =
      (EntryStreamWriter.from_raw zw o mt md).zw.out.length := rfl
  have hbase_cd : (EntryStreamWriter.from_raw zw o mt md).zw.cd_entries =
      zw.cd_entries := rfl
  obtain ⟨hshape_out, hshape_cd⟩ :=
    close_shape ((EntryStreamWriter.from_raw zw o mt md).runWrites steps) flush
  have hlen : ((((EntryStreamWriter.from_raw zw o mt md).runWrites steps)).zw.out.length +
      flush.length -
      (((EntryStreamWriter.from_raw zw o mt md).runWrites steps)).data_offset) % 2 ^ 32 =
      (emittedBytes steps).length + flush.length := by
    rw [hout, hdo, hbase_do, List.length_append]
    rw [Nat.add_comm ((EntryStreamWriter.from_raw zw o mt md).zw.out.length)
      ((emittedBytes steps).length)]
    omega
  have hcrc : Hasher.finalize
      ((((EntryStreamWriter.from_raw zw o mt md).runWrites steps)).hasher) =
      crc32 (acceptedBytes steps) := by
    rw [hhash, hbase_hash]
    rfl
  have hucnt : ((((EntryStreamWriter.from_raw zw o mt md).runWrites steps)).outerOffset) %
      2 ^ 32 = (acceptedBytes steps).length := by
    rw [hoff, hbase_off, Nat.zero_add, ← acceptedCount_eq_length steps hwf]
    omega
  constructor
  · rw [hshape_out, hlen, hcrc, hucnt]
  · rw [hshape_cd, hcd, hbase_cd]
    refine ⟨_, rfl, ?_, ?_, ?_, ?_⟩
    · exact hcrc
    · exact hlen
    · exact hucnt
    · exact hopts.trans rfl

/-- Witness for C1 at a concrete run of the stream writer: one partial
write of two bytes, one pending poll, one byte flushed on shutdown. -/
theorem stream_close_spec_witness :
    (∀ s ∈ stepsEx, stepWF s) ∧
      (emittedBytes stepsEx).length + ([99] : List Nat).length < 2 ^ 32 ∧
      (acceptedBytes stepsEx).length < 2 ^ 32 ∧
      (((((EntryStreamWriter.from_raw zwEmpty optsF 1 2).runWrites stepsEx).close
            [99]).out =
          (((EntryStreamWriter.from_raw zwEmpty optsF 1 2).runWrites
              stepsEx)).zw.out ++ [99] ++ u32le DATA_DESCRIPTOR ++
            u32le (crc32 (acceptedBytes stepsEx)) ++
            u32le ((emittedBytes stepsEx).length + ([99] : List Nat).length) ++
            u32le (acceptedBytes stepsEx).length) ∧
        ∃ cde : CentralDirectoryEntry,
          ((((EntryStreamWriter.from_raw zwEmpty optsF 1 2).runWrites
                stepsEx).close [99]).cd_entries = zwEmpty.cd_entries ++ [cde] ∧
            cde.header.crc = crc32 (acceptedBytes stepsEx) ∧
            cde.header.compressed_size =
              (emittedBytes stepsEx).length + ([99] : List Nat).length ∧
            cde.header.uncompressed_size = (acceptedBytes stepsEx).length ∧
            cde.opts = optsF)) :=
  ⟨by simp [stepsEx, stepWF], by decide, by decide,
    stream_close_spec zwEmpty optsF 1 2 stepsEx [99] (by simp [stepsEx, stepWF])
      (by decide) (by decide)⟩

/-- C2: for every streamed entry, the local file header written at
construction time (before any payload byte) records compressed size 0,
uncompressed size 0 and CRC 0 as placeholders, has the data-descriptor
flag set, and is immediately followed by the filename bytes and then the
extra-field bytes whose lengths are declared in the header. -/
theorem stream_lfh_placeholders (zw : ZipFileWriter) (o : EntryOptions)
    (mt md : Nat) (hfn : o.filename.length < 2 ^ 16)
    (hex : o.extra.length < 2 ^ 16) :
    (EntryStreamWriter.from_raw zw o mt md).zw.out =
        zw.out ++ u32le LOCAL_FILE_HEADER ++
          (EntryStreamWriter.from_raw zw o mt md).lfh.as_slice ++
          o.filename ++ o.extra ∧
      (EntryStreamWriter.from_raw zw o mt md).lfh.compressed_size = 0 ∧
      (EntryStreamWriter.from_raw zw o mt md).lfh.uncompressed_size = 0 ∧
      (EntryStreamWriter.from_raw zw o mt md).lfh.crc = 0 ∧
      (EntryStreamWriter.from_raw zw o mt md).lfh.flags.data_descriptor = true ∧
      (EntryStreamWriter.from_raw zw o mt md).lfh.file_name_length =
        o.filename.length ∧
      (EntryStreamWriter.from_raw zw o mt md).lfh.extra_field_length =
        o.extra.length := by
  simp [EntryStreamWriter.from_raw, EntryStreamWriter.write_lfh,
    EntryStreamWriter.lfhFor, Nat.mod_eq_of_lt hfn, Nat.mod_eq_of_lt hex,
    List.append_assoc]
  omega

/-- Witness for C2 at a concrete writer, options and timestamp. -/
theorem stream_lfh_placeholders_witness :
    (([97, 98] : List Nat).length < 2 ^ 16) ∧
      (([1, 2, 3] : List Nat).length < 2 ^ 16) ∧
      ((EntryStreamWriter.from_raw ⟨[7], [], none⟩
          ⟨[97, 98], .deflate, [1, 2, 3], [], 0⟩ 5 6).zw.out =
          [7] ++ u32le LOCAL_FILE_HEADER ++
            (EntryStreamWriter.from_raw ⟨[7], [], none⟩
              ⟨[97, 98], .deflate, [1, 2, 3], [], 0⟩ 5 6).lfh.as_slice ++
            [97, 98] ++ [1, 2, 3] ∧
        (EntryStreamWriter.from_raw ⟨[7], [], none⟩
          ⟨[97, 98], .deflate, [1, 2, 3], [], 0⟩ 5 6).lfh.compressed_size = 0 ∧
        (EntryStreamWriter.from_raw ⟨[7], [], none⟩
          ⟨[97, 98], .deflate, [1, 2, 3], [], 0⟩ 5 6).lfh.uncompressed_size = 0 ∧
        (EntryStreamWriter.from_raw ⟨[7], [], none⟩
          ⟨[97, 98], .deflate, [1, 2, 3], [], 0⟩ 5 6).lfh.crc = 0 ∧
        (EntryStreamWriter.from_raw ⟨[7], [], none⟩
          ⟨[97, 98], .deflate, [1, 2, 3], [], 0⟩ 5 6).lfh.flags.data_descriptor =
          true ∧
        (EntryStreamWriter.from_raw ⟨[7], [], none⟩
          ⟨[97, 98], .deflate, [1, 2, 3], [], 0⟩ 5 6).lfh.file_name_length =
          ([97, 98] : List Nat).length ∧
        (EntryStreamWriter.from_raw ⟨[7], [], none⟩
          ⟨[97, 98], .deflate, [1, 2, 3], [], 0⟩ 5 6).lfh.extra_field_length =
          ([1, 2, 3] : List Nat).length) :=
  ⟨by decide, by decide,
    stream_lfh_placeholders ⟨[7], [], none⟩ ⟨[97, 98], .deflate, [1, 2, 3], [], 0⟩
      5 6 (by decide) (by decide)⟩

/-- C8: for every stream writer in the open state, after any sequence of
write polls the CRC-32 accumulator state is exactly the accumulator run
over the accepted uncompressed bytes (so its finalization is the CRC-32 of
exactly those bytes); a single `poll_write` updates the hasher with the
prefix of the buffer the inner writer reported written when the poll is
`Ready(Ok _)`, and leaves it unchanged on a pending or failed poll. -/
theorem poll_write_crc_invariant (zw : ZipFileWriter) (o : EntryOptions)
    (mt md : Nat) (steps : List (List Nat × WritePoll)) :
    ((EntryStreamWriter.from_raw zw o mt md).runWrites steps).hasher =
        Hasher.update Hasher.new (acceptedBytes steps) ∧
      Hasher.finalize
          ((EntryStreamWriter.from_raw zw o mt md).runWrites steps).hasher =
        crc32 (acceptedBytes steps) ∧
      (∀ (w : EntryStreamWriter) (buf : List Nat) (written : Nat)
        (emitted : List Nat),
        (w.poll_write buf (.ready written emitted)).hasher =
          Hasher.update w.hasher (buf.take written)) ∧
      (∀ (w : EntryStreamWriter) (buf : List Nat),
        (w.poll_write buf .pending).hasher = w.hasher) ∧
      (∀ (w : EntryStreamWriter) (buf : List Nat),
        (w.poll_write buf .ioError).hasher = w.hasher) := by
  refine ⟨?_, ?_, ?_, ?_, ?_⟩
  · have h := runWrites_hasher steps (EntryStreamWriter.from_raw zw o mt md)
    simpa [EntryStreamWriter.from_raw] using h
  · have h := runWrites_hasher steps (EntryStreamWriter.from_raw zw o mt md)
    rw [h]
    simp [EntryStreamWriter.from_raw, crc32]
  · intro w buf written emitted
    simp [EntryStreamWriter.poll_write]
  · intro w buf
    simp [EntryStreamWriter.poll_write]
  · intro w buf
    simp [EntryStreamWriter.poll_write]

/-- C5: `ZipFileWriter::close` records the stream offset at call time as
the central-directory start offset, re-emits every accumulated
`CentralDirectoryEntry` in append order as signature, fixed header,
filename bytes, extra bytes and comment bytes, then writes the
end-of-central-directory record whose entry counts equal the number of
accumulated entries, whose directory size equals the bytes written for
the directory run and whose directory offset equals the recorded start
offset, followed by the archive comment bytes when a comment was set. -/
theorem zip_writer_close_spec (w : ZipFileWriter) :
    ZipFileWriter.close w =
        w.out ++ (w.cd_entries.map cdEntryRecordBytes).flatten ++
          u32le END_OF_CENTRAL_DIRECTORY ++
          EndOfCentralDirectoryHeader.as_slice
            { disk_num := 0
              start_cent_dir_disk := 0
              num_of_entries_disk := w.cd_entries.length
              num_of_entries := w.cd_entries.length
              size_cent_dir := ((w.cd_entries.map cdEntryRecordBytes).flatten).length
              cent_dir_offset := w.out.length
              file_comm_length := (w.comment_opt.getD []).length } ++
          w.comment_opt.getD [] ∧
      ∀ e : CentralDirectoryEntry,
        cdEntryRecordBytes e =
          u32le CENTRAL_DIRECTORY_FILE_HEADER ++ e.header.as_slice ++
            e.opts.filename ++ e.opts.extra ++ e.opts.comment := by
  constructor
  · rw [ZipFileWriter.close, ZipFileWriter.closeHeader, writeCdEntries_eq]
    cases hc : w.comment_opt with
    | none =>
        simp only [Option.getD_none, List.length_nil,
          EndOfCentralDirectoryHeader.as_slice, u16le_mod, u32le_mod,
          List.length_append, Nat.add_sub_cancel_left, List.append_assoc]
    | some c =>
        simp only [Option.getD_some,
          EndOfCentralDirectoryHeader.as_slice, u16le_mod, u32le_mod,
          List.length_append, Nat.add_sub_cancel_left, List.append_assoc]
  · intro e
    rfl

/-- C10: the value configured through `EntryOptions::unix_permissions` has
no effect on the bytes the stream-write path produces — the shared output
stream after `close` is byte-identical, the central directory headers
recorded are identical, and the appended header's external attributes,
internal attributes and disk-start are always 0, regardless of the
permission setting. -/
theorem stream_unix_permissions_ignored (zw : ZipFileWriter) (o : EntryOptions)
    (mt md p : Nat) (steps : List (List Nat × WritePoll)) (flush : List Nat) :
    ((((EntryStreamWriter.from_raw zw (o.set_unix_permissions p) mt
            md).runWrites steps).close flush).out =
        (((EntryStreamWriter.from_raw zw o mt md).runWrites steps).close
          flush).out) ∧
      ((((EntryStreamWriter.from_raw zw (o.set_unix_permissions p) mt
            md).runWrites steps).close flush).cd_entries.map
          CentralDirectoryEntry.header =
        (((EntryStreamWriter.from_raw zw o mt md).runWrites steps).close
          flush).cd_entries.map CentralDirectoryEntry.header) ∧
      ∃ cde : CentralDirectoryEntry,
        (((EntryStreamWriter.from_raw zw (o.set_unix_permissions p) mt
            md).runWrites steps).close flush).cd_entries =
            zw.cd_entries ++ [cde] ∧
          cde.header.exter_attr = 0 ∧ cde.header.inter_attr = 0 ∧
          cde.header.disk_start = 0 := by
  have hfr : EntryStreamWriter.from_raw zw (o.set_unix_permissions p) mt md =
      (EntryStreamWriter.from_raw zw o mt md).withOptions
        (o.set_unix_permissions p) := rfl
  rw [hfr, runWrites_set_options]
  obtain ⟨hdo, hlo, hlfh, hopts, hcd, hcom⟩ :=
    runWrites_frame steps (EntryStreamWriter.from_raw zw o mt md)
  have hWo : ((EntryStreamWriter.from_raw zw o mt md).runWrites steps).options = o :=
    hopts.trans rfl
  obtain ⟨hsoA, hscA⟩ := close_shape
    (((EntryStreamWriter.from_raw zw o mt md).runWrites steps).withOptions
      (o.set_unix_permissions p)) flush
  obtain ⟨hsoB, hscB⟩ := close_shape
    ((EntryStreamWriter.from_raw zw o mt md).runWrites steps) flush
  refine ⟨?_, ?_, ?_⟩
  · rw [hsoA, hsoB]
    rfl
  · rw [hscA, hscB]
    simp only [List.map_append, List.map_cons, List.map_nil,
      EntryStreamWriter.withOptions, EntryOptions.set_unix_permissions]
    rw [hWo]
  · rw [hscA]
    simp only [EntryStreamWriter.withOptions]
    exact ⟨_, by rw [hcd]; rfl, rfl, rfl, rfl⟩

theorem from_reader_error (bs : List Nat) (e : ZipError)
    (h : LocalFileHeader.from_reader bs = .error e) : e = .TruncatedData := by
  rw [LocalFileHeader.from_reader] at h
  split at h
  · injection h with h2
    exact h2.symm
  · exact Except.noConfusion h

/-- C6: `entry_reader` fails with `EntryIndexOutOfBounds` exactly when the
index is at least the entry count, and an out-of-bounds failure is decided
before any access to the backing bytes (the result is then independent of
the file contents). -/
theorem entry_reader_oob (z : ZipFileReader) (file : List Nat) (index : Nat) :
    (z.entry_reader file index = some (.error .EntryIndexOutOfBounds) ↔
        z.entries.length ≤ index) ∧
      (z.entries.length ≤ index →
        ∀ file2 : List Nat,
          z.entry_reader file index = z.entry_reader file2 index) := by
  have hnone : z.entries.length ≤ index → z.entries.get? index = none :=
    fun h => List.get?_eq_none.mpr h
  refine ⟨⟨?_, ?_⟩, ?_⟩
  · intro h
    by_contra hlt
    push_neg at hlt
    rw [ZipFileReader.entry_reader] at h
    split at h
    · rename_i heq
      exact absurd (List.get?_eq_none.mp heq) (Nat.not_le.mpr hlt)
    · rename_i e heq
      split at h
      · exact Option.noConfusion h
      · split at h
        · rename_i err herr
          simp only [Option.some.injEq, Except.error.injEq] at h
          rw [from_reader_error _ _ herr] at h
          exact ZipError.noConfusion h
        · dsimp only at h
          split at h
          · simp at h
          · split at h
            · exact Option.noConfusion h
            · simp at h
  · intro h
    simp only [ZipFileReader.entry_reader, hnone h]
  · intro h file2
    simp only [ZipFileReader.entry_reader, hnone h]

/-- Witness for C6 at a concrete reader, index and pair of files. -/
theorem entry_reader_oob_witness :
    ((ZipFileReader.entry_reader ⟨[], none⟩ [1, 2, 3] 0 =
          some (.error .EntryIndexOutOfBounds) ↔
        ([] : List ZipEntry).length ≤ 0) ∧
      (([] : List ZipEntry).length ≤ 0 →
        ∀ file2 : List Nat,
          ZipFileReader.entry_reader ⟨[], none⟩ [1, 2, 3] 0 =
            ZipFileReader.entry_reader ⟨[], none⟩ file2 0)) :=
  entry_reader_oob ⟨[], none⟩ [1, 2, 3] 0

/-- C3: for an entry whose data-descriptor flag is clear, `entry_reader`
bounds the raw payload to exactly the `compressed_size` recorded in the
central-directory entry of the table (not the size fields of the on-disk
local header, which never enter the framing), before handing the bytes to
the adapter selected by the entry's compression-method tag. -/
theorem entry_reader_known_size (z : ZipFileReader) (file : List Nat)
    (index : Nat) (e : ZipEntry) (off cs : Nat) (hdr : LocalFileHeader)
    (he : z.entries.get? index = some e)
    (hdd : e.flags.data_descriptor = false)
    (hoff : e.offset = some off)
    (hcs : e.compressed_size = some cs)
    (hhdr : LocalFileHeader.from_reader (file.drop (off + 4)) = .ok hdr) :
    z.entry_reader file index = some (.ok
      { compression := e.compression
        rawPayload := (file.drop (off + 4 + 26 +
          (hdr.file_name_length + hdr.extra_field_length))).take cs
        withDataDescriptor := false }) := by
  simp only [ZipFileReader.entry_reader, he, hoff, hhdr,
    ZipEntry.data_descriptor, hdd, hcs]
  simp

/-- Witness for C3: a 34-byte backing file of zeros, one stored entry of
compressed size 3 at offset 0. -/
theorem entry_reader_known_size_witness :
    (⟨[entryKnown], none⟩ : ZipFileReader).entries.get? 0 = some entryKnown ∧
      entryKnown.flags.data_descriptor = false ∧
      entryKnown.offset = some 0 ∧
      entryKnown.compressed_size = some 3 ∧
      LocalFileHeader.from_reader ((List.replicate 34 0).drop (0 + 4)) =
        .ok hdrZero ∧
      ZipFileReader.entry_reader ⟨[entryKnown], none⟩ (List.replicate 34 0) 0 =
        some (.ok
          { compression := entryKnown.compression
            rawPayload := ((List.replicate 34 0).drop (0 + 4 + 26 +
              (hdrZero.file_name_length + hdrZero.extra_field_length))).take 3
            withDataDescriptor := false }) :=
  ⟨by decide, by decide, by decide, by decide, by rfl,
    entry_reader_known_size ⟨[entryKnown], none⟩ (List.replicate 34 0) 0
      entryKnown 0 3 hdrZero (by decide) (by decide) (by decide) (by decide)
      (by rfl)⟩

/-- C4: for an entry whose data-descriptor flag is set, `entry_reader`
frames the payload by scanning the raw stream for the little-endian
data-descriptor signature bytes: the framed payload is everything strictly
before the first occurrence of those bytes (it is a prefix of the stream,
and no position before its end starts an occurrence of the signature), so
a payload containing the signature bytes is framed early. -/
theorem entry_reader_descriptor_delimited (z : ZipFileReader) (file : List Nat)
    (index : Nat) (e : ZipEntry) (off : Nat) (hdr : LocalFileHeader)
    (he : z.entries.get? index = some e)
    (hdd : e.flags.data_descriptor = true)
    (hoff : e.offset = some off)
    (hhdr : LocalFileHeader.from_reader (file.drop (off + 4)) = .ok hdr) :
    (z.entry_reader file index = some (.ok
        { compression := e.compression
          rawPayload := takeUntilDelim (u32le DATA_DESCRIPTOR)
            (file.drop (off + 4 + 26 +
              (hdr.file_name_length + hdr.extra_field_length)))
          withDataDescriptor := true })) ∧
      ((takeUntilDelim (u32le DATA_DESCRIPTOR)
          (file.drop (off + 4 + 26 +
            (hdr.file_name_length + hdr.extra_field_length)))).isPrefixOf
        (file.drop (off + 4 + 26 +
          (hdr.file_name_length + hdr.extra_field_length))) = true) ∧
      ∀ i : Nat,
        (u32le DATA_DESCRIPTOR).isPrefixOf
            ((file.drop (off + 4 + 26 +
              (hdr.file_name_length + hdr.extra_field_length))).drop i) = true →
          (takeUntilDelim (u32le DATA_DESCRIPTOR)
            (file.drop (off + 4 + 26 +
              (hdr.file_name_length + hdr.extra_field_length)))).length ≤ i := by
  refine ⟨?_, takeUntilDelim_isPrefixOf _ _, takeUntilDelim_min _ _⟩
  simp only [ZipFileReader.entry_reader, he, hoff, hhdr,
    ZipEntry.data_descriptor, hdd]
  simp

/-- Witness for C4: a backing file whose payload region contains the
descriptor signature bytes after four payload bytes. -/
theorem entry_reader_descriptor_delimited_witness :
    (⟨[entryDD], none⟩ : ZipFileReader).entries.get? 0 = some entryDD ∧
      entryDD.flags.data_descriptor = true ∧
      entryDD.offset = some 0 ∧
      LocalFileHeader.from_reader
          ((List.replicate 30 0 ++ [1, 2, 3, 4] ++ u32le DATA_DESCRIPTOR ++
            [9, 9, 9, 9, 9, 9, 9, 9, 9, 9, 9, 9]).drop (0 + 4)) = .ok hdrZero ∧
      ((ZipFileReader.entry_reader ⟨[entryDD], none⟩
          (List.replicate 30 0 ++ [1, 2, 3, 4] ++ u32le DATA_DESCRIPTOR ++
            [9, 9, 9, 9, 9, 9, 9, 9, 9, 9, 9, 9]) 0 = some (.ok
          { compression := entryDD.compression
            rawPayload := takeUntilDelim (u32le DATA_DESCRIPTOR)
              ((List.replicate 30 0 ++ [1, 2, 3, 4] ++ u32le DATA_DESCRIPTOR ++
                [9, 9, 9, 9, 9, 9, 9, 9, 9, 9, 9, 9]).drop (0 + 4 + 26 +
                (hdrZero.file_name_length + hdrZero.extra_field_length)))
            withDataDescriptor := true })) ∧
        ((takeUntilDelim (u32le DATA_DESCRIPTOR)
            ((List.replicate 30 0 ++ [1, 2, 3, 4] ++ u32le DATA_DESCRIPTOR ++
              [9, 9, 9, 9, 9, 9, 9, 9, 9, 9, 9, 9]).drop (0 + 4 + 26 +
              (hdrZero.file_name_length + hdrZero.extra_field_length)))).isPrefixOf
          ((List.replicate 30 0 ++ [1, 2, 3, 4] ++ u32le DATA_DESCRIPTOR ++
            [9, 9, 9, 9, 9, 9, 9, 9, 9, 9, 9, 9]).drop (0 + 4 + 26 +
            (hdrZero.file_name_length + hdrZero.extra_field_length))) = true) ∧
        ∀ i : Nat,
          (u32le DATA_DESCRIPTOR).isPrefixOf
              (((List.replicate 30 0 ++ [1, 2, 3, 4] ++ u32le DATA_DESCRIPTOR ++
                [9, 9, 9, 9, 9, 9, 9, 9, 9, 9, 9, 9]).drop (0 + 4 + 26 +
                (hdrZero.file_name_length + hdrZero.extra_field_length))).drop
                i) = true →
            (takeUntilDelim (u32le DATA_DESCRIPTOR)
              ((List.replicate 30 0 ++ [1, 2, 3, 4] ++ u32le DATA_DESCRIPTOR ++
                [9, 9, 9, 9, 9, 9, 9, 9, 9, 9, 9, 9]).drop (0 + 4 + 26 +
                (hdrZero.file_name_length +
                  hdrZero.extra_field_length)))).length ≤ i) :=
  ⟨by decide, by decide, by decide, by rfl,
    entry_reader_descriptor_delimited ⟨[entryDD], none⟩
      (List.replicate 30 0 ++ [1, 2, 3, 4] ++ u32le DATA_DESCRIPTOR ++
        [9, 9, 9, 9, 9, 9, 9, 9, 9, 9, 9, 9]) 0 entryDD 0 hdrZero (by decide)
      (by decide) (by decide) (by rfl)⟩

/-- C7: for a valid index, `entry_reader` works on a fresh cursor over the
backing bytes: it seeks to the entry's recorded offset plus the 4-byte
signature width, decodes the 26-byte local file header there, skips
exactly the declared filename plus extra-field lengths, and frames the
payload starting at that position; the decoded header body is indeed 26
bytes long under the codec. -/
theorem entry_reader_positioning (z : ZipFileReader) (file : List Nat)
    (index : Nat) (e : ZipEntry) (off : Nat) (hdr : LocalFileHeader)
    (he : z.entries.get? index = some e)
    (hoff : e.offset = some off)
    (hhdr : LocalFileHeader.from_reader (file.drop (off + 4)) = .ok hdr) :
    (e.flags.data_descriptor = true →
        z.entry_reader file index = some (.ok
          { compression := e.compression
            rawPayload := takeUntilDelim (u32le DATA_DESCRIPTOR)
              (file.drop (off + 4 + 26 +
                (hdr.file_name_length + hdr.extra_field_length)))
            withDataDescriptor := true })) ∧
      (∀ cs : Nat, e.flags.data_descriptor = false →
        e.compressed_size = some cs →
        z.entry_reader file index = some (.ok
          { compression := e.compression
            rawPayload := (file.drop (off + 4 + 26 +
              (hdr.file_name_length + hdr.extra_field_length))).take cs
            withDataDescriptor := false })) ∧
      hdr.as_slice.length = 26 := by
  refine ⟨?_, ?_, ?_⟩
  · intro hdd
    simp only [ZipFileReader.entry_reader, he, hoff, hhdr,
      ZipEntry.data_descriptor, hdd]
    simp
  · intro cs hdd hcs
    simp only [ZipFileReader.entry_reader, he, hoff, hhdr,
      ZipEntry.data_descriptor, hdd, hcs]
    simp
  · simp [LocalFileHeader.as_slice, u16le, u32le]

/-- Witness for C7 at the concrete known-size entry and zero file. -/
theorem entry_reader_positioning_witness :
    (⟨[entryKnown], none⟩ : ZipFileReader).entries.get? 0 = some entryKnown ∧
      entryKnown.offset = some 0 ∧
      LocalFileHeader.from_reader ((List.replicate 34 0).drop (0 + 4)) =
        .ok hdrZero ∧
      ((entryKnown.flags.data_descriptor = true →
          ZipFileReader.entry_reader ⟨[entryKnown], none⟩ (List.replicate 34 0)
            0 = some (.ok
              { compression := entryKnown.compression
                rawPayload := takeUntilDelim (u32le DATA_DESCRIPTOR)
                  ((List.replicate 34 0).drop (0 + 4 + 26 +
                    (hdrZero.file_name_length + hdrZero.extra_field_length)))
                withDataDescriptor := true })) ∧
        (∀ cs : Nat, entryKnown.flags.data_descriptor = false →
          entryKnown.compressed_size = some cs →
          ZipFileReader.entry_reader ⟨[entryKnown], none⟩ (List.replicate 34 0)
            0 = some (.ok
              { compression := entryKnown.compression
                rawPayload := ((List.replicate 34 0).drop (0 + 4 + 26 +
                  (hdrZero.file_name_length +
                    hdrZero.extra_field_length))).take cs
                withDataDescriptor := false })) ∧
        hdrZero.as_slice.length = 26) :=
  ⟨by decide, by decide, by rfl,
    entry_reader_positioning ⟨[entryKnown], none⟩ (List.replicate 34 0) 0
      entryKnown 0 hdrZero (by decide) (by decide) (by rfl)⟩

/-- C9: `entry_reader` models the two `Option::unwrap` calls as a panic
(`none`): an entry table containing an entry without its offset, or — on
the known-size path — without its compressed size, makes the call panic
rather than return a typed error; but every entry table produced by the
central-directory parse has both fields present, so under that
precondition the panic branch is unreachable. -/
theorem entry_reader_unwrap_total :
    (∀ (count : Nat) (bs : List Nat) (entries : List ZipEntry)
        (com : Option (List Nat)) (file : List Nat) (index : Nat),
        parseCD count bs = some entries →
        ZipFileReader.entry_reader ⟨entries, com⟩ file index ≠ none) ∧
      ZipFileReader.entry_reader ⟨[entryNoOffset], none⟩ (List.replicate 40 0)
          0 = none ∧
      ZipFileReader.entry_reader ⟨[entryNoSize], none⟩ (List.replicate 40 0)
          0 = none := by
  refine ⟨?_, by rfl, by rfl⟩
  intro count bs entries com file index hparse hnone
  rw [ZipFileReader.entry_reader] at hnone
  split at hnone
  · exact Option.noConfusion hnone
  · rename_i e heq
    obtain ⟨hofs, hcss⟩ :=
      parseCD_fields count bs entries hparse e (List.get?_mem heq)
    split at hnone
    · rename_i hoffn
      rw [hoffn] at hofs
      exact Bool.noConfusion hofs
    · split at hnone
      · exact Option.noConfusion hnone
      · dsimp only at hnone
        split at hnone
        · exact Option.noConfusion hnone
        · split at hnone
          · rename_i hcsn
            rw [hcsn] at hcss
            exact Bool.noConfusion hcss
          · exact Option.noConfusion hnone

/-- Witness for C9: a one-header central directory parses to a table whose
entry the reader can open without reaching the panic branch. -/
theorem entry_reader_unwrap_total_witness :
    parseCD 1 (u32le CENTRAL_DIRECTORY_FILE_HEADER ++ List.replicate 42 0) =
        some [entryParsed] ∧
      ZipFileReader.entry_reader ⟨[entryParsed], none⟩ (List.replicate 40 0)
          0 ≠ none :=
  ⟨by rfl,
    entry_reader_unwrap_total.1 1
      (u32le CENTRAL_DIRECTORY_FILE_HEADER ++ List.replicate 42 0)
      [entryParsed] none (List.replicate 40 0) 0 (by rfl)⟩

end AsyncZip
